import Mathlib

/-!
Verification development for the venus chain store (`pkg/chain/store.go`).

The Go code is shallowly embedded: the `Store` struct becomes `StoreState`,
methods become pure functions returning the updated state together with an
optional error (Go methods mutate the receiver in place, so an erroring call
still returns the partially-mutated state), the key-value datastore becomes an
association list, and the content-addressed block source becomes an
association list from CIDs to blocks.  Components of the repository that are
not part of `store.go` (the `block` package, `TipIndex`, `ChainIndex`,
`CollectTipsToCommonAncestor`, the ancestor iterator) are modelled from the
specification, as indicated in their doc comments.
-/

/-- A content identifier.  `0` plays the role of `cid.Undef` (the zero CID). -/
abbrev Cid := Nat

/-- The zero CID, `cid.Undef` in Go. -/
def cidUndef : Cid := 0

/-- Modelled from the spec: a beacon entry is an opaque per-block randomness
token (an opaque byte string). -/
structure BeaconEntry where
  data : List Nat
deriving DecidableEq, Repr

/-- Modelled from the spec: a `block.Block` record with the attributes the
store reads — height (epoch), parent tipset key, the parent state root and
parent message receipts CIDs, and the ordered beacon entries. -/
structure Block where
  height : Nat
  parents : List Cid
  parentStateRoot : Cid
  parentMessageReceipts : Cid
  beaconEntries : List BeaconEntry
deriving DecidableEq, Repr

/-- Modelled from the spec: a `TipSetKey` is the canonical sorted list of the
member blocks' CIDs. -/
abbrev TipSetKey := List Cid

/-- Modelled from the spec: a `TipSet` is a non-empty set of blocks sharing
height and parent set.  Each member is paired with its CID (content
addressing); `UndefTipSet` is the empty block list. -/
structure TipSet where
  blocks : List (Cid × Block)
deriving DecidableEq, Repr

/-- The key of a tipset: the list of its member CIDs (`TipSet.Key`). -/
def TipSet.key (ts : TipSet) : TipSetKey := ts.blocks.map (fun p => p.1)

/-- `TipSet.Height`: errors (returns `none`) on the undefined tipset. -/
def TipSet.heightE (ts : TipSet) : Option Nat :=
  match ts.blocks with
  | [] => none
  | (_, b) :: _ => some b.height

/-- `TipSet.EnsureHeight`: the height of the first block (0 when undefined). -/
def TipSet.ensureHeight (ts : TipSet) : Nat :=
  match ts.blocks with
  | [] => 0
  | (_, b) :: _ => b.height

/-- `TipSet.EnsureParents`: the parent key of the first block. -/
def TipSet.ensureParents (ts : TipSet) : TipSetKey :=
  match ts.blocks with
  | [] => []
  | (_, b) :: _ => b.parents

/-- `TipSet.At(0)`: the first block of the tipset. -/
def TipSet.at0 (ts : TipSet) : Block :=
  match ts.blocks with
  | [] => { height := 0, parents := [], parentStateRoot := cidUndef,
            parentMessageReceipts := cidUndef, beaconEntries := [] }
  | (_, b) :: _ => b

/-- The block source (`ipldSource` over the cbor store): an association list
from CIDs to decoded blocks. -/
abbrev Src := List (Cid × Block)

/-- `ipldSource.GetBlock`: fetch a block by CID; `none` is the NotFound error. -/
def srcGet (src : Src) (c : Cid) : Option Block :=
  (src.find? (fun p => decide (p.1 = c))).map (fun p => p.2)

/-- The loop body of `Store.GetTipSet`: fetch every member block of a key. -/
def fetchBlocks (src : Src) : List Cid → Except String (List (Cid × Block))
  | [] => .ok []
  | c :: rest =>
    match srcGet src c with
    | none => .error "failed to get block"
    | some b => (fetchBlocks src rest).map (fun l => (c, b) :: l)

/-- Modelled from the spec: `block.NewTipSet` fails if the block set is empty
or if members disagree on height or parents (§4.1). -/
def newTipSet (blks : List (Cid × Block)) : Except String TipSet :=
  match blks with
  | [] => .error "tipset must have at least one block"
  | (c0, b0) :: rest =>
    if rest.all (fun p => decide (p.2.height = b0.height) && decide (p.2.parents = b0.parents))
    then .ok ⟨(c0, b0) :: rest⟩
    else .error "blocks in tipset must agree on height and parents"

/-- `Store.GetTipSet`: fetch each member block of `key` and construct the
tipset.  Also stands for `LoadTipSetBlocks`. -/
def GetTipSet (src : Src) (key : TipSetKey) : Except String TipSet :=
  (fetchBlocks src key).bind newTipSet

/-- Keys of the chain's private datastore.  `headKey` is `/chain/heaviestTipSet`,
`checkPointKey` is `/chain/checkPoint`, `genesisKey` is `/consensus/genesisCid`,
and `metaKey k h` is `makeKey(ts.String(), h)` — the per-tipset slot, keyed by
the tipset's canonical key string and its height (§6). -/
inductive DsKey where
  | headKey
  | checkPointKey
  | genesisKey
  | metaKey (k : TipSetKey) (h : Nat)
deriving DecidableEq, Repr

/-- Values stored in the datastore.  `encoding.Encode` is a canonical
injective encoding with `decode ∘ encode = id` (§6), so we model encoded
values by the records they encode. -/
inductive DsValue where
  | tskey (k : TipSetKey)
  | meta (stateRoot receipts : Cid)
deriving DecidableEq, Repr

/-- `encoding.Encode` applied to a `TipSetKey`. -/
def encodeTipSetKey (k : TipSetKey) : DsValue := DsValue.tskey k

/-- The key-value datastore (`repo.Datastore`).  `data` is newest-first:
lookups take the most recent entry for a key, so a `Put` overwrites.
`failKeys` models transient I/O failure: a `Put` on such a key errors. -/
structure Datastore where
  data : List (DsKey × DsValue)
  failKeys : List DsKey
deriving DecidableEq, Repr

/-- `ds.Get`: the most recent value stored under `k`. -/
def dsGet (d : Datastore) (k : DsKey) : Option DsValue :=
  (d.data.find? (fun p => decide (p.1 = k))).map (fun p => p.2)

/-- `ds.Put`: store `v` under `k`, or fail (transient I/O error). -/
def dsPut (d : Datastore) (k : DsKey) (v : DsValue) : Except String Datastore :=
  if d.failKeys.contains k then .error "datastore put failed"
  else .ok { d with data := (k, v) :: d.data }

/-- `TipSetMetadata`: a tipset together with its aggregated state root and
receipts root. -/
structure TipSetMetadata where
  tipSet : TipSet
  tipSetStateRoot : Cid
  tipSetReceipts : Cid
deriving DecidableEq, Repr

/-- Modelled from the spec: the in-memory `TipIndex` (§4.3) keeps a map by
tipset key and a map by `(parentKey, height)`.  Both are newest-first
association lists, so a `put` overwrites by shadowing. -/
structure TipIndex where
  byKey : List (TipSetKey × TipSetMetadata)
  byParentsHeight : List ((TipSetKey × Nat) × TipSetMetadata)
deriving DecidableEq, Repr

/-- Modelled from the spec: `TipIndex.Put` inserts into both maps (§4.3). -/
def TipIndex.put (idx : TipIndex) (tsm : TipSetMetadata) : TipIndex :=
  { byKey := (tsm.tipSet.key, tsm) :: idx.byKey
    byParentsHeight :=
      ((tsm.tipSet.ensureParents, tsm.tipSet.ensureHeight), tsm) :: idx.byParentsHeight }

/-- Modelled from the spec: `TipIndex.Has`. -/
def TipIndex.has (idx : TipIndex) (k : TipSetKey) : Bool :=
  idx.byKey.any (fun p => decide (p.1 = k))

/-- A reorg message sent on the store's internal reorg channel. -/
structure Reorg where
  old : List TipSet
  new : List TipSet
deriving DecidableEq, Repr

/-- The state of a `Store`: the datastore, the in-memory head pointer, the
in-memory checkpoint key, the tip index, the genesis CID, and the sequence of
reorg messages sent to `reorgCh` (oldest first). -/
structure StoreState where
  ds : Datastore
  head : Option TipSet
  checkPoint : TipSetKey
  tipIndex : TipIndex
  genesis : Cid
  reorgQueue : List Reorg
deriving DecidableEq, Repr

/-- `Store.GetHead`: the key of the head tipset, or the empty key when the
head is unset or undefined. -/
def GetHead (s : StoreState) : TipSetKey :=
  match s.head with
  | none => []
  | some ts =>
    match ts.blocks with
    | [] => []
    | _ => ts.key

/-- `Store.GetCheckPoint`: returns the in-memory checkpoint key. -/
def GetCheckPoint (s : StoreState) : TipSetKey := s.checkPoint

/-- `Store.SetCheckPoint`: sets the in-memory checkpoint key only. -/
def SetCheckPoint (s : StoreState) (checkPoint : TipSetKey) : StoreState :=
  { s with checkPoint := checkPoint }

/-- `Store.WriteCheckPoint`: encodes the given key and writes it to the
checkpoint slot of the datastore. -/
def WriteCheckPoint (s : StoreState) (cids : TipSetKey) : StoreState × Option String :=
  match dsPut s.ds DsKey.checkPointKey (encodeTipSetKey cids) with
  | .error e => (s, some e)
  | .ok d => ({ s with ds := d }, none)

/-- `Store.HasTipSetAndState`: whether the tip index is indexing `key`. -/
def HasTipSetAndState (s : StoreState) (key : TipSetKey) : Bool :=
  s.tipIndex.has key

/-- `Store.writeTipSetMetadata`: rejects an undefined state root or receipts
root, then encodes the pair and writes it under the per-tipset key. -/
def writeTipSetMetadata (s : StoreState) (tsm : TipSetMetadata) : Except String StoreState :=
  if tsm.tipSetStateRoot = cidUndef then
    .error "attempting to write state root cid.Undef"
  else if tsm.tipSetReceipts = cidUndef then
    .error "attempting to write receipts cid.Undef"
  else
    match tsm.tipSet.heightE with
    | none => .error "tipset height: undefined tipset"
    | some h =>
      (dsPut s.ds (DsKey.metaKey tsm.tipSet.key h)
        (DsValue.meta tsm.tipSetStateRoot tsm.tipSetReceipts)).map
        (fun d => { s with ds := d })

/-- `Store.PutTipSetMetadata`: updates the tip index first, then persists the
state mapping; an error from the write leaves the index update in place. -/
def PutTipSetMetadata (s : StoreState) (tsm : TipSetMetadata) : StoreState × Option String :=
  let s1 := { s with tipIndex := s.tipIndex.put tsm }
  match writeTipSetMetadata s1 tsm with
  | .error e => (s1, some e)
  | .ok s2 => (s2, none)

/-- Modelled from the spec: one step relation of `CollectTipsToCommonAncestor`
(§4.5).  Walk both sides toward lower heights, appending each visited tipset
to its list, advancing the side with the greater current height, both sides
on a height tie; stop (without including the common ancestor) when both sides
reference the same `TipSetKey`; fail when a side must advance past genesis. -/
def collectAux (src : Src) : Nat → TipSet → TipSet → List TipSet → List TipSet →
    Except String (List TipSet × List TipSet)
  | 0, _, _, _, _ => .error "no common ancestor found: walk does not terminate"
  | fuel + 1, o, n, dacc, aacc =>
    if o.key = n.key then .ok (dacc, aacc)
    else if n.ensureHeight < o.ensureHeight then
      match GetTipSet src o.ensureParents with
      | .error e => .error e
      | .ok o2 => collectAux src fuel o2 n (dacc ++ [o]) aacc
    else if o.ensureHeight < n.ensureHeight then
      match GetTipSet src n.ensureParents with
      | .error e => .error e
      | .ok n2 => collectAux src fuel o n2 dacc (aacc ++ [n])
    else
      if o.ensureHeight = 0 then .error "no common ancestor: reached genesis"
      else
        match GetTipSet src o.ensureParents, GetTipSet src n.ensureParents with
        | .ok o2, .ok n2 => collectAux src fuel o2 n2 (dacc ++ [o]) (aacc ++ [n])
        | .error e, _ => .error e
        | .ok _, .error e => .error e

/-- Modelled from the spec: `CollectTipsToCommonAncestor(old, new)` computes
the `(dropped, added)` symmetric path between two heads (§4.5).  The fuel
bound suffices for any chain whose parents have strictly lower heights. -/
def CollectTipsToCommonAncestor (src : Src) (oldHead newHead : TipSet) :
    Except String (List TipSet × List TipSet) :=
  collectAux src (oldHead.ensureHeight + newHead.ensureHeight + 1) oldHead newHead [] []

/-- The chain package's `Reverse` helper (reverses a tipset slice in place). -/
def Reverse (l : List TipSet) : List TipSet := l.reverse

/-- `Store.writeHead`: encode the key and put it under `HeadKey`. -/
def writeHead (s : StoreState) (cids : TipSetKey) : Except String StoreState :=
  (dsPut s.ds DsKey.headKey (encodeTipSetKey cids)).map (fun d => { s with ds := d })

/-- The tail of `Store.SetHead` once `(dropped, added)` are known: persist the
new head key, commit the in-memory head, then (unless `newTs.Height()` errors)
reverse both lists and send one reorg message on the reorg channel. -/
def setHeadCommit (s : StoreState) (newTs : TipSet) (dropped added : List TipSet) :
    StoreState × Option String :=
  match writeHead s newTs.key with
  | .error e => (s, some ("failed to write new Head to datastore: " ++ e))
  | .ok s1 =>
    let s2 := { s1 with head := some newTs }
    match newTs.heightE with
    | none => (s2, some "tipset height: undefined tipset")
    | some _ =>
      ({ s2 with reorgQueue :=
          s2.reorgQueue ++ [{ old := Reverse dropped, new := Reverse added }] }, none)

/-- `Store.SetHead`: no-op when the head already equals `newTs` by key
(`TipSet.Equals` compares keys); otherwise compute the reorg (or `[newTs]`
alone when the head is unset), persist and commit the new head, and emit one
reorg message. -/
def SetHead (src : Src) (s : StoreState) (newTs : TipSet) : StoreState × Option String :=
  match s.head with
  | some oldHead =>
    if oldHead.key = newTs.key then (s, none)
    else
      match CollectTipsToCommonAncestor src oldHead newTs with
      | .error e => (s, some e)
      | .ok (dropped, added) => setHeadCommit s newTs dropped added
  | none => setHeadCommit s newTs [] [newTs]

/-- The topic constants of the head-change pub/sub. -/
def HCRevert : String := "revert"

/-- The `apply` head-change type tag. -/
def HCApply : String := "apply"

/-- The `current` head-change type tag. -/
def HCCurrent : String := "current"

/-- A `HeadChange` notification entry. -/
structure HeadChange where
  type : String
  val : TipSet
deriving DecidableEq, Repr

/-- The batch built by `headChangeNotifee` in `Store.reorgWorker` for one
reorg message: the revert entries (from `r.old`, in order) followed by the
apply entries (from `r.new`, in order); this single batch is published to
subscribers. -/
def notifBatch (r : Reorg) : List HeadChange :=
  r.old.map (fun t => { type := HCRevert, val := t }) ++
    r.new.map (fun t => { type := HCApply, val := t })

/-- `Store.loadHead`: read and decode the head key from the datastore. -/
def loadHead (s : StoreState) : Except String TipSetKey :=
  match dsGet s.ds DsKey.headKey with
  | none => .error "failed to read HeadKey"
  | some (DsValue.tskey k) => .ok k
  | some _ => .error "failed to cast headCids"

/-- `Store.loadStateRootAndReceipts`: read and decode the per-tipset
`(stateRoot, receipts)` pair from the datastore. -/
def loadStateRootAndReceipts (s : StoreState) (ts : TipSet) : Except String (Cid × Cid) :=
  match ts.heightE with
  | none => .error "tipset height: undefined tipset"
  | some h =>
    match dsGet s.ds (DsKey.metaKey ts.key h) with
    | none => .error "failed to read tipset key"
    | some (DsValue.meta sr rr) => .ok (sr, rr)
    | some _ => .error "failed to decode tip set metadata"

/-- The ancestor traversal of `Store.Load`: for each tipset starting at the
head, read its persisted metadata, `PutTipSetMetadata` it, and stop when the
height is `≤ loopBack` or (the iterator completing) the parent key is empty;
otherwise load the parent tipset and continue.  Returns the updated state,
the visited tipsets in walk order, and the error if any. -/
def loadWalk (src : Src) : Nat → StoreState → TipSet → Int →
    StoreState × List TipSet × Option String
  | 0, s, _, _ => (s, [], some "load traversal: out of fuel")
  | fuel + 1, s, ts, loopBack =>
    match loadStateRootAndReceipts s ts with
    | .error e => (s, [], some e)
    | .ok (sr, rr) =>
      match PutTipSetMetadata s { tipSet := ts, tipSetStateRoot := sr, tipSetReceipts := rr } with
      | (s2, some e) => (s2, [], some e)
      | (s2, none) =>
        if (ts.ensureHeight : Int) ≤ loopBack then (s2, [ts], none)
        else if ts.ensureParents = [] then (s2, [ts], none)
        else
          match GetTipSet src ts.ensureParents with
          | .error e => (s2, [ts], some e)
          | .ok pts =>
            match loadWalk src fuel s2 pts loopBack with
            | (s3, vs, e) => (s3, ts :: vs, e)

/-- The `loopBack` computation of `Store.Load`: `0` when the checkpoint key is
empty, otherwise the checkpoint tipset's height minus 10 (as a signed epoch,
with no saturation). -/
def loadLoopBack (src : Src) (s : StoreState) : Except String Int :=
  if s.checkPoint = [] then .ok 0
  else (GetTipSet src s.checkPoint).map (fun cp => (cp.ensureHeight : Int) - 10)

/-- `Store.Load`: clear the tip index, read the head key, load the head
tipset, compute `loopBack` from the checkpoint, walk the ancestors indexing
each visited tipset, and finally `SetHead` the loaded head.  Returns the
state, the visited tipsets, and the error if any. -/
def Load (src : Src) (s0 : StoreState) : StoreState × List TipSet × Option String :=
  let s := { s0 with tipIndex := ⟨[], []⟩ }
  match loadHead s with
  | .error e => (s, [], some e)
  | .ok headTsKey =>
    match GetTipSet src headTsKey with
    | .error e => (s, [], some ("error loading head tipset: " ++ e))
    | .ok headTs =>
      match loadLoopBack src s with
      | .error e => (s, [], some ("error loading head tipset: " ++ e))
      | .ok loopBack =>
        match loadWalk src (headTs.ensureHeight + 1) s headTs loopBack with
        | (s2, vs, some e) => (s2, vs, some e)
        | (s2, vs, none) =>
          match SetHead src s2 headTs with
          | (s3, e) => (s3, vs, e)

/-- The loop of `Store.walkBack`: repeatedly load the parent tipset `pts` of
`ts`; return `ts` when the target lies strictly above `pts` (null blocks),
`pts` when it is exactly at the target, and recurse otherwise. -/
def walkBackAux (src : Src) : Nat → TipSet → Nat → Except String TipSet
  | 0, _, _ => .error "walkBack: out of fuel"
  | fuel + 1, ts, target =>
    match GetTipSet src ts.ensureParents with
    | .error e => .error e
    | .ok pts =>
      if pts.ensureHeight < target then .ok ts
      else if pts.ensureHeight = target then .ok pts
      else walkBackAux src fuel pts target

/-- `Store.walkBack`: the linear ancestor walk to the lowest tipset whose
height is at least `target`.  The fuel bound suffices for chains whose
parents have strictly lower heights. -/
def walkBack (src : Src) (ts : TipSet) (target : Nat) : Except String TipSet :=
  if target > ts.ensureHeight then
    .error "looking for tipset with height greater than start point"
  else if target = ts.ensureHeight then .ok ts
  else walkBackAux src (ts.ensureHeight + 1) ts target

/-- Modelled from the spec: `ChainIndex.GetTipSetByHeight` (§4.4) — its
correctness contract is that of the linear ancestor walk along parents,
which is the source's `walkBack`. -/
def chainIndexGetTipSetByHeight (src : Src) (ts : TipSet) (h : Nat) : Except String TipSet :=
  walkBack src ts h

/-- Modelled from the spec: `ChainIndex.GetTipsetByHeightWithoutCache`
(§4.4) — the uncached linear ancestor walk. -/
def chainIndexGetTipsetByHeightWithoutCache (src : Src) (ts : TipSet) (h : Nat) :
    Except String TipSet :=
  walkBack src ts h

/-- `Store.GetTipSetByHeight`: error above the start height, identity at it,
otherwise query the chain index (falling back to the uncached walk when the
cached answer lies below `h`), and finally return the landing tipset — or its
parent tipset when `prev` is set and the landing height is not exactly `h`. -/
def GetTipSetByHeight (src : Src) (s : StoreState) (tsO : Option TipSet) (h : Nat)
    (prev : Bool) : Except String TipSet :=
  match (match tsO with | some t => some t | none => s.head) with
  | none => .error "nil tipset and nil head"
  | some ts =>
    if h > ts.ensureHeight then
      .error "looking for tipset with height greater than start point"
    else if h = ts.ensureHeight then .ok ts
    else
      match chainIndexGetTipSetByHeight src ts h with
      | .error e => .error e
      | .ok lbts0 =>
        match (if lbts0.ensureHeight < h
               then chainIndexGetTipsetByHeightWithoutCache src ts h
               else .ok lbts0) with
        | .error e => .error e
        | .ok lbts =>
          if lbts.ensureHeight = h || !prev then .ok lbts
          else GetTipSet src lbts.ensureParents

/-- The fixed beacon entry payload returned under `VENUS_IGNORE_DRAND=_yes_`:
sixteen bytes of `9`. -/
def drandFill : List Nat := List.replicate 16 9

/-- The loop of `Store.GetLatestBeaconEntry`, one fuel unit per ancestor step
(20 in the source).  `env` is the value of `VENUS_IGNORE_DRAND`, consulted
only when the 20 steps are exhausted. -/
def getLatestBeaconEntryAux (src : Src) (env : Option String) :
    Nat → TipSet → Except String BeaconEntry
  | 0, _ =>
    if env = some "_yes_" then .ok { data := drandFill }
    else .error "found NO beacon entries in the 20 blocks prior to given tipset"
  | fuel + 1, cur =>
    match (cur.at0.beaconEntries).getLast? with
    | some e => .ok e
    | none =>
      if cur.ensureHeight = 0 then
        .error "made it back to genesis block without finding beacon entry"
      else
        match GetTipSet src cur.ensureParents with
        | .error _ => .error "failed to load parents when searching back for latest beacon entry"
        | .ok next => getLatestBeaconEntryAux src env fuel next

/-- `Store.GetLatestBeaconEntry`: walk back at most 20 ancestors looking for
the last beacon entry of the first block. -/
def GetLatestBeaconEntry (src : Src) (env : Option String) (ts : TipSet) :
    Except String BeaconEntry :=
  getLatestBeaconEntryAux src env 20 ts

/-- Whether the parent tipset of a block, when it loads, has strictly lower
height than the block.  `true` also when the parent tipset does not load. -/
def blockParentLower (src : Src) (b : Block) : Bool :=
  match GetTipSet src b.parents with
  | .ok ts2 => decide (ts2.ensureHeight < b.height)
  | .error _ => true

/-- A well-formed block source: every stored block's parent tipset, when it
loads, has strictly lower height (heights strictly decrease along parents,
null blocks may skip heights). -/
def wellFormed (src : Src) : Bool :=
  src.all (fun p => blockParentLower src p.2)

/-- The per-tipset form of well-formedness, for the two walk entry points. -/
def headOkB (src : Src) (ts : TipSet) : Bool :=
  match GetTipSet src ts.ensureParents with
  | .ok ts2 => decide (ts2.ensureHeight < ts.ensureHeight)
  | .error _ => true

/-- `HeadOk` as a proposition. -/
def HeadOk (src : Src) (ts : TipSet) : Prop :=
  ∀ ts2, GetTipSet src ts.ensureParents = Except.ok ts2 →
    ts2.ensureHeight < ts.ensureHeight

/-- Every height-0 block of the source has an empty parent key (genesis has
no parents). -/
def zeroNoParents (src : Src) : Bool :=
  src.all (fun p => !(decide (p.2.height = 0)) || decide (p.2.parents = []))

/-- Every block of the source with an empty parent key has height 0 (the
chain is rooted at genesis). -/
def rootedLow (src : Src) : Bool :=
  src.all (fun p => !(decide (p.2.parents = [])) || decide (p.2.height = 0))

/-- Strictly descending heights (newest first, the order of the walk). -/
def DescH : List TipSet → Prop :=
  List.Chain' (fun x y => y.ensureHeight < x.ensureHeight)

/-- Strictly ascending heights (oldest first, the order delivered in a
notification batch). -/
def AscH : List TipSet → Prop :=
  List.Chain' (fun x y => x.ensureHeight < y.ensureHeight)

/-- The no-op guard of `SetHead`: the head is set and equals `newTs` by key
(`TipSet.Equals` is key equality). -/
def headNoOp (s : StoreState) (t : TipSet) : Bool :=
  match s.head with
  | some o => decide (o.key = t.key)
  | none => false

/-- Example block at height `i` with CID `i + 1`; genesis has no parents. -/
def exBlk (i : Nat) : Block :=
  { height := i, parents := if i = 0 then [] else [i],
    parentStateRoot := 5, parentMessageReceipts := 6, beaconEntries := [] }

/-- A linear example chain of `count` blocks (heights `0 .. count - 1`). -/
def exChain (count : Nat) : Src :=
  (List.range count).map (fun i => (i + 1, exBlk i))

/-- The single-block tipset at height `i` of the linear example chain. -/
def exTs (i : Nat) : TipSet := ⟨[(i + 1, exBlk i)]⟩

/-- A fork block at height 2 (CID 40) sharing parents with `exBlk 2`. -/
def exForkBlk : Block :=
  { height := 2, parents := [2], parentStateRoot := 5, parentMessageReceipts := 6,
    beaconEntries := [] }

/-- The linear example chain plus the fork block. -/
def exSrcFork : Src := exChain 4 ++ [(40, exForkBlk)]

/-- The forked single-block tipset at height 2. -/
def exTsFork : TipSet := ⟨[(40, exForkBlk)]⟩

/-- A second, disconnected genesis block (CID 90). -/
def exGen2 : Block :=
  { height := 0, parents := [], parentStateRoot := 5, parentMessageReceipts := 6,
    beaconEntries := [] }

/-- The linear example chain plus a disconnected second genesis. -/
def exSrcTwoGen : Src := exChain 4 ++ [(90, exGen2)]

/-- The tipset of the second genesis. -/
def exTsGen2 : TipSet := ⟨[(90, exGen2)]⟩

/-- An empty example datastore that never fails. -/
def exDs : Datastore := { data := [], failKeys := [] }

/-- An example store state with head at height 1 of the linear chain. -/
def exState : StoreState :=
  { ds := exDs, head := some (exTs 1), checkPoint := [], tipIndex := ⟨[], []⟩,
    genesis := 1, reorgQueue := [] }

/-- An example store state with no head, whose datastore rejects head writes. -/
def exStateFail : StoreState :=
  { ds := { data := [], failKeys := [DsKey.headKey] }, head := none, checkPoint := [],
    tipIndex := ⟨[], []⟩, genesis := 1, reorgQueue := [] }

/-- An example store state with head at genesis of the linear chain. -/
def exStateG : StoreState :=
  { ds := exDs, head := some (exTs 0), checkPoint := [], tipIndex := ⟨[], []⟩,
    genesis := 1, reorgQueue := [] }

/-- Metadata slots for the linear chain: the single-block tipset at height
`i` maps to the encoded pair `(5, 6)`. -/
def exMetaSlots (count : Nat) : List (DsKey × DsValue) :=
  (List.range count).map (fun i => (DsKey.metaKey [i + 1] i, DsValue.meta 5 6))

/-- A store state ready for `Load`: head slot at height 15, metadata for all
16 tipsets, checkpoint key at height 12 (so `loopBack = 2`). -/
def exStateLoad : StoreState :=
  { ds := { data := (DsKey.headKey, DsValue.tskey [16]) :: exMetaSlots 16, failKeys := [] },
    head := none, checkPoint := [13], tipIndex := ⟨[], []⟩, genesis := 1, reorgQueue := [] }

/-- A store state ready for `Load` with no checkpoint set. -/
def exStateLoadNoCp : StoreState :=
  { ds := { data := (DsKey.headKey, DsValue.tskey [16]) :: exMetaSlots 16, failKeys := [] },
    head := none, checkPoint := [], tipIndex := ⟨[], []⟩, genesis := 1, reorgQueue := [] }

/-- Example block for beacon walks: beacon entries only at height 1. -/
def exBlkB (i : Nat) : Block :=
  { height := i, parents := if i = 0 then [] else [i],
    parentStateRoot := 5, parentMessageReceipts := 6,
    beaconEntries := if i = 1 then [⟨[1]⟩, ⟨[2]⟩] else [] }

/-- A linear chain of `count` beacon-walk blocks. -/
def exChainB (count : Nat) : Src :=
  (List.range count).map (fun i => (i + 1, exBlkB i))

/-- The single-block tipset at height `i` of the beacon-walk chain. -/
def exTsB (i : Nat) : TipSet := ⟨[(i + 1, exBlkB i)]⟩

/-- A chain with a null block: tipsets at heights 0, 1 and 3 only. -/
def exBlkNull3 : Block :=
  { height := 3, parents := [2], parentStateRoot := 5, parentMessageReceipts := 6,
    beaconEntries := [] }

/-- The null-block chain source: heights 0, 1, 3 (nothing at height 2). -/
def exSrcNull : Src := [(1, exBlk 0), (2, exBlk 1), (3, exBlkNull3)]

/-- The single-block tipset at height 3 of the null-block chain. -/
def exTsNull3 : TipSet := ⟨[(3, exBlkNull3)]⟩

/-- A metadata record with an undefined state root. -/
def exMetaBad : TipSetMetadata :=
  { tipSet := exTs 1, tipSetStateRoot := cidUndef, tipSetReceipts := 6 }

/-- A metadata record with both roots defined. -/
def exMetaGood : TipSetMetadata :=
  { tipSet := exTs 1, tipSetStateRoot := 5, tipSetReceipts := 6 }

/-- The condition of C8's negative case: the `fuel`-step ancestor walk from
`ts` finds no beacon entries in any visited first block, never reaches a
height-0 tipset, and every parent load succeeds. -/
def walkNoBeacon (src : Src) : Nat → TipSet → Bool
  | 0, _ => true
  | fuel + 1, cur =>
    (cur.at0.beaconEntries).isEmpty && !(decide (cur.ensureHeight = 0)) &&
      (match GetTipSet src cur.ensureParents with
        | .error _ => false
        | .ok next => walkNoBeacon src fuel next)

/-- The condition of C8's positive case: the last beacon entry of the first
block of the first ancestor within `fuel` steps that has beacon entries. -/
def firstBeaconWithin (src : Src) : Nat → TipSet → Option BeaconEntry
  | 0, _ => none
  | fuel + 1, cur =>
    match (cur.at0.beaconEntries).getLast? with
    | some e => some e
    | none =>
      if cur.ensureHeight = 0 then none
      else
        match GetTipSet src cur.ensureParents with
        | .error _ => none
        | .ok next => firstBeaconWithin src fuel next

lemma headOk_of_b {src : Src} {ts : TipSet} (h : headOkB src ts = true) :
    HeadOk src ts := by
  intro ts2 hg
  unfold headOkB at h
  rw [hg] at h
  exact of_decide_eq_true h

lemma fetchBlocks_first {src : Src} {c : Cid} {cs : List Cid} {l : List (Cid × Block)}
    (h : fetchBlocks src (c :: cs) = .ok l) :
    ∃ b rest, l = (c, b) :: rest ∧ srcGet src c = some b := by
  unfold fetchBlocks at h
  cases hsg : srcGet src c with
  | none => rw [hsg] at h; exact absurd h (by simp)
  | some b =>
    rw [hsg] at h
    cases hfb : fetchBlocks src cs with
    | error e => rw [hfb] at h; simp [Except.map] at h
    | ok rest =>
      rw [hfb] at h
      simp [Except.map] at h
      exact ⟨b, rest, h.symm, rfl⟩

lemma GetTipSet_first {src : Src} {k : TipSetKey} {ts : TipSet}
    (h : GetTipSet src k = .ok ts) :
    ∃ c b rest, ts.blocks = (c, b) :: rest ∧ srcGet src c = some b := by
  unfold GetTipSet at h
  cases k with
  | nil => simp [fetchBlocks, Except.bind, newTipSet] at h
  | cons c cs =>
    cases hfb : fetchBlocks src (c :: cs) with
    | error e => rw [hfb] at h; simp [Except.bind] at h
    | ok l =>
      rw [hfb] at h
      obtain ⟨b, rest, rfl, hsg⟩ := fetchBlocks_first hfb
      simp only [Except.bind] at h
      simp only [newTipSet] at h
      by_cases hall :
          rest.all (fun p => decide (p.2.height = b.height) && decide (p.2.parents = b.parents)) = true
      · rw [if_pos hall] at h
        cases h
        exact ⟨c, b, rest, rfl, hsg⟩
      · rw [if_neg hall] at h
        cases h

lemma srcGet_mem {src : Src} {c : Cid} {b : Block} (h : srcGet src c = some b) :
    ∃ p ∈ src, p.2 = b := by
  unfold srcGet at h
  cases hf : src.find? (fun p => decide (p.1 = c)) with
  | none => rw [hf] at h; simp at h
  | some p =>
    rw [hf] at h
    simp at h
    exact ⟨p, List.mem_of_find?_eq_some hf, h⟩

lemma headOkB_of_get {src : Src} (hwf : wellFormed src = true)
    {k : TipSetKey} {ts : TipSet} (h : GetTipSet src k = .ok ts) :
    headOkB src ts = true := by
  obtain ⟨c, b, rest, hb, hsg⟩ := GetTipSet_first h
  obtain ⟨p, hp, hpb⟩ := srcGet_mem hsg
  have hbl : blockParentLower src p.2 = true := by
    have := List.all_eq_true.mp hwf p hp
    simpa using this
  rw [hpb] at hbl
  have h1 : ts.ensureParents = b.parents := by
    simp [TipSet.ensureParents, hb]
  have h2 : ts.ensureHeight = b.height := by
    simp [TipSet.ensureHeight, hb]
  unfold headOkB
  rw [h1, h2]
  unfold blockParentLower at hbl
  exact hbl

lemma zeroIff_of_get {src : Src} (hz : zeroNoParents src = true)
    (hr : rootedLow src = true) {k : TipSetKey} {ts : TipSet}
    (h : GetTipSet src k = .ok ts) :
    (ts.ensureHeight = 0 ↔ ts.ensureParents = []) := by
  obtain ⟨c, b, rest, hb, hsg⟩ := GetTipSet_first h
  obtain ⟨p, hp, hpb⟩ := srcGet_mem hsg
  have hz1 := List.all_eq_true.mp hz p hp
  have hr1 := List.all_eq_true.mp hr p hp
  rw [hpb] at hz1 hr1
  have h1 : ts.ensureParents = b.parents := by
    simp [TipSet.ensureParents, hb]
  have h2 : ts.ensureHeight = b.height := by
    simp [TipSet.ensureHeight, hb]
  rw [h1, h2]
  constructor
  · intro hh
    simp [hh] at hz1
    exact hz1
  · intro hh
    simp [hh] at hr1
    exact hr1

lemma ascH_reverse {l : List TipSet} (h : DescH l) : AscH l.reverse := by
  unfold AscH
  rw [List.chain'_reverse]
  exact h

lemma descH_concat {l : List TipSet} {o : TipSet} (hd : DescH l)
    (hlast : ∀ x, l.getLast? = some x → o.ensureHeight < x.ensureHeight) :
    DescH (l ++ [o]) := by
  unfold DescH at *
  rw [List.chain'_append]
  refine ⟨hd, List.chain'_singleton _, ?_⟩
  intro x hx y hy
  simp at hy
  subst hy
  exact hlast x hx

lemma collectAux_desc {src : Src} (hwf : wellFormed src = true) :
    ∀ fuel o n dacc aacc d a,
      HeadOk src o → HeadOk src n →
      DescH dacc → DescH aacc →
      (∀ x, dacc.getLast? = some x → o.ensureHeight < x.ensureHeight) →
      (∀ x, aacc.getLast? = some x → n.ensureHeight < x.ensureHeight) →
      collectAux src fuel o n dacc aacc = .ok (d, a) →
      DescH d ∧ DescH a := by
  intro fuel
  induction fuel with
  | zero =>
    intro o n dacc aacc d a _ _ _ _ _ _ h
    simp [collectAux] at h
  | succ fuel ih =>
    intro o n dacc aacc d a ho hn hd ha hld hla h
    simp only [collectAux] at h
    by_cases hk : o.key = n.key
    · rw [if_pos hk] at h
      cases h
      exact ⟨hd, ha⟩
    · rw [if_neg hk] at h
      by_cases h1 : n.ensureHeight < o.ensureHeight
      · rw [if_pos h1] at h
        cases hg : GetTipSet src o.ensureParents with
        | error e => rw [hg] at h; cases h
        | ok o2 =>
          rw [hg] at h
          refine ih o2 n (dacc ++ [o]) aacc d a
            (headOk_of_b (headOkB_of_get hwf hg)) hn
            (descH_concat hd hld) ha ?_ hla h
          intro x hx
          rw [List.getLast?_concat] at hx
          cases hx
          exact ho o2 hg
      · rw [if_neg h1] at h
        by_cases h2 : o.ensureHeight < n.ensureHeight
        · rw [if_pos h2] at h
          cases hg : GetTipSet src n.ensureParents with
          | error e => rw [hg] at h; cases h
          | ok n2 =>
            rw [hg] at h
            refine ih o n2 dacc (aacc ++ [n]) d a
              ho (headOk_of_b (headOkB_of_get hwf hg))
              hd (descH_concat ha hla) hld ?_ h
            intro x hx
            rw [List.getLast?_concat] at hx
            cases hx
            exact hn n2 hg
        · rw [if_neg h2] at h
          by_cases h0 : o.ensureHeight = 0
          · rw [if_pos h0] at h
            cases h
          · rw [if_neg h0] at h
            cases hgo : GetTipSet src o.ensureParents with
            | error e => rw [hgo] at h; cases h
            | ok o2 =>
              cases hgn : GetTipSet src n.ensureParents with
              | error e => rw [hgo, hgn] at h; cases h
              | ok n2 =>
                rw [hgo, hgn] at h
                refine ih o2 n2 (dacc ++ [o]) (aacc ++ [n]) d a
                  (headOk_of_b (headOkB_of_get hwf hgo))
                  (headOk_of_b (headOkB_of_get hwf hgn))
                  (descH_concat hd hld) (descH_concat ha hla) ?_ ?_ h
                · intro x hx
                  rw [List.getLast?_concat] at hx
                  cases hx
                  exact ho o2 hgo
                · intro x hx
                  rw [List.getLast?_concat] at hx
                  cases hx
                  exact hn n2 hgn

lemma collect_desc {src : Src} (hwf : wellFormed src = true)
    {o n : TipSet} {d a : List TipSet}
    (ho : headOkB src o = true) (hn : headOkB src n = true)
    (h : CollectTipsToCommonAncestor src o n = .ok (d, a)) :
    DescH d ∧ DescH a :=
  collectAux_desc hwf _ o n [] [] d a (headOk_of_b ho) (headOk_of_b hn)
    List.chain'_nil List.chain'_nil (by simp) (by simp) h

lemma setHeadCommit_ok {s : StoreState} {t : TipSet} {dropped added : List TipSet}
    {s' : StoreState} (h : setHeadCommit s t dropped added = (s', none)) :
    s.ds.failKeys.contains DsKey.headKey = false ∧
    (∃ hh, t.heightE = some hh) ∧
    s' = { s with
           ds := { s.ds with data := (DsKey.headKey, encodeTipSetKey t.key) :: s.ds.data },
           head := some t,
           reorgQueue := s.reorgQueue ++ [{ old := Reverse dropped, new := Reverse added }] } := by
  unfold setHeadCommit writeHead dsPut at h
  by_cases hc : s.ds.failKeys.contains DsKey.headKey = true
  · rw [if_pos hc] at h
    simp [Except.map] at h
  · rw [if_neg hc] at h
    simp only [Except.map] at h
    cases hh : t.heightE with
    | none =>
      rw [hh] at h
      simp at h
    | some v =>
      rw [hh] at h
      cases h
      exact ⟨by simpa using hc, ⟨v, rfl⟩, rfl⟩

lemma setHeadCommit_putFail {s : StoreState} {t : TipSet} {dropped added : List TipSet}
    (hc : s.ds.failKeys.contains DsKey.headKey = true) :
    ∃ e, setHeadCommit s t dropped added = (s, some e) := by
  unfold setHeadCommit writeHead dsPut
  rw [if_pos hc]
  exact ⟨_, rfl⟩

lemma setHead_ok_cases {src : Src} {s : StoreState} {t : TipSet} {s' : StoreState}
    (hno : headNoOp s t = false)
    (h : SetHead src s t = (s', none)) :
    ∃ dropped added,
      ((s.head = none ∧ dropped = [] ∧ added = [t]) ∨
        (∃ o, s.head = some o ∧
          CollectTipsToCommonAncestor src o t = .ok (dropped, added))) ∧
      setHeadCommit s t dropped added = (s', none) := by
  unfold SetHead at h
  cases hh : s.head with
  | none =>
    rw [hh] at h
    exact ⟨[], [t], Or.inl ⟨rfl, rfl, rfl⟩, h⟩
  | some o =>
    rw [hh] at h
    have hk : ¬ o.key = t.key := by
      unfold headNoOp at hno
      rw [hh] at hno
      simpa using hno
    have h2 : (if o.key = t.key then (s, none)
        else match CollectTipsToCommonAncestor src o t with
          | .error e => (s, some e)
          | .ok (dropped, added) => setHeadCommit s t dropped added)
        = (s', (none : Option String)) := h
    rw [if_neg hk] at h2
    cases hcol : CollectTipsToCommonAncestor src o t with
    | error e => rw [hcol] at h2; cases h2
    | ok da =>
      obtain ⟨d, a⟩ := da
      rw [hcol] at h2
      exact ⟨d, a, Or.inr ⟨o, rfl, hcol⟩, h2⟩

lemma setHead_noop {src : Src} {s : StoreState} {t : TipSet}
    (h : headNoOp s t = true) : SetHead src s t = (s, none) := by
  unfold headNoOp at h
  cases hh : s.head with
  | none => rw [hh] at h; cases h
  | some o =>
    rw [hh] at h
    unfold SetHead
    rw [hh]
    show (if o.key = t.key then (s, none)
        else match CollectTipsToCommonAncestor src o t with
          | .error e => (s, some e)
          | .ok (dropped, added) => setHeadCommit s t dropped added)
        = (s, (none : Option String))
    rw [if_pos (of_decide_eq_true h)]

/-- C1: a `SetHead(new_ts)` call that returns without error and changes the
head (the no-op guard did not fire) leaves `GetHead()` equal to
`new_ts.Key()` and the datastore head slot `/chain/heaviestTipSet` holding
exactly `encode(new_ts.Key())`. -/
theorem setHead_success_persists (src : Src) (s s' : StoreState) (t : TipSet)
    (hno : headNoOp s t = false)
    (h : SetHead src s t = (s', none)) :
    GetHead s' = t.key ∧ dsGet s'.ds DsKey.headKey = some (encodeTipSetKey t.key) := by
  obtain ⟨d, a, _, hcommit⟩ := setHead_ok_cases hno h
  obtain ⟨hc, ⟨hh, hhe⟩, rfl⟩ := setHeadCommit_ok hcommit
  constructor
  · cases hb : t.blocks with
    | nil =>
      unfold TipSet.heightE at hhe
      rw [hb] at hhe
      cases hhe
    | cons p rest => simp [GetHead, hb]
  · simp [dsGet, List.find?]

/-- C1 witness: `SetHead` from height 1 to height 2 on the linear example
chain succeeds, and afterwards `GetHead` and the head slot hold the new key. -/
theorem setHead_success_persists_witness :
    GetHead (SetHead (exChain 4) exState (exTs 2)).1 = (exTs 2).key ∧
    dsGet (SetHead (exChain 4) exState (exTs 2)).1.ds DsKey.headKey
      = some (encodeTipSetKey (exTs 2).key) := by
  have hrun : SetHead (exChain 4) exState (exTs 2)
      = ((SetHead (exChain 4) exState (exTs 2)).1, none) := by decide
  exact setHead_success_persists (exChain 4) exState _ (exTs 2) (by decide) hrun

/-- C2: a `SetHead` call that emits a notification (enqueues a reorg) yields
one published batch in which every revert entry precedes every apply entry,
and within the revert and apply subsequences the tipsets are in strictly
ascending height order — oldest first along the walk from the common
ancestor.  Requires the block source to be well-formed (parent tipsets have
strictly lower heights). -/
theorem setHead_batch_ordered (src : Src) (s s' : StoreState) (t : TipSet) (r : Reorg)
    (hwf : wellFormed src = true)
    (hho : ∀ o, s.head = some o → headOkB src o = true)
    (hht : headOkB src t = true)
    (h : SetHead src s t = (s', none))
    (hemit : s'.reorgQueue = s.reorgQueue ++ [r]) :
    notifBatch r = r.old.map (fun x => { type := HCRevert, val := x })
        ++ r.new.map (fun x => { type := HCApply, val := x })
      ∧ AscH r.old ∧ AscH r.new := by
  refine ⟨rfl, ?_⟩
  by_cases hno : headNoOp s t = true
  · rw [setHead_noop hno] at h
    cases h
    have := congrArg List.length hemit
    simp at this
  · have hno' : headNoOp s t = false := by simpa using hno
    obtain ⟨d, a, hcase, hcommit⟩ := setHead_ok_cases hno' h
    obtain ⟨hc, hhe, rfl⟩ := setHeadCommit_ok hcommit
    have hr : ({ old := Reverse d, new := Reverse a } : Reorg) = r := by
      simp only [List.append_cancel_left_eq] at hemit
      simpa using hemit
    subst hr
    rcases hcase with ⟨_, rfl, rfl⟩ | ⟨o, hhd, hcol⟩
    · constructor
      · simp [Reverse, AscH]
      · simp [Reverse, AscH]
    · obtain ⟨hd, ha⟩ := collect_desc hwf (hho o hhd) hht hcol
      exact ⟨ascH_reverse hd, ascH_reverse ha⟩

/-- C2 witness: a one-step fork reorg on the example chain emits the batch
`[revert 2, apply 2']` — reverts before applies, each subsequence ascending. -/
theorem setHead_batch_ordered_witness :
    notifBatch { old := [exTs 2], new := [exTsFork] }
        = ({ old := [exTs 2], new := [exTsFork] } : Reorg).old.map
            (fun x => { type := HCRevert, val := x })
          ++ ({ old := [exTs 2], new := [exTsFork] } : Reorg).new.map
            (fun x => { type := HCApply, val := x })
      ∧ AscH ({ old := [exTs 2], new := [exTsFork] } : Reorg).old
      ∧ AscH ({ old := [exTs 2], new := [exTsFork] } : Reorg).new := by
  have hrun : SetHead exSrcFork { exState with head := some (exTs 2) } exTsFork
      = ((SetHead exSrcFork { exState with head := some (exTs 2) } exTsFork).1, none) := by
    decide
  refine setHead_batch_ordered exSrcFork { exState with head := some (exTs 2) }
    _ exTsFork { old := [exTs 2], new := [exTsFork] } (by decide) ?_ (by decide) hrun (by decide)
  intro o ho
  cases ho
  decide

/-- C5 counterexample: when the head already equals `t`, two successive
`SetHead(t)` calls emit zero reorg batches, not exactly one — both calls hit
the no-op guard.  Here the head of `exState` is already `exTs 1` and the
queue stays empty after both calls. -/
theorem setHead_twice_zero_batches :
    ((SetHead (exChain 4) ((SetHead (exChain 4) exState (exTs 1)).1) (exTs 1)).1).reorgQueue.length
      = 0 ∧ (0 : Nat) ≠ 1 := by
  constructor
  · decide
  · decide

/-- C5 (amended): provided the first `SetHead(t)` succeeds and actually
changes the head (the no-op guard did not fire), the two successive calls
enqueue exactly one reorg batch: the first enqueues one, and the second —
seeing the head equal to `t` by key — is a no-op returning nil with the
state (head slot and reorg queue included) unchanged. -/
theorem setHead_idempotent (src : Src) (s s1 : StoreState) (t : TipSet)
    (hno : headNoOp s t = false)
    (h : SetHead src s t = (s1, none)) :
    (∃ r, s1.reorgQueue = s.reorgQueue ++ [r]) ∧ SetHead src s1 t = (s1, none) := by
  obtain ⟨d, a, _, hcommit⟩ := setHead_ok_cases hno h
  obtain ⟨_, _, rfl⟩ := setHeadCommit_ok hcommit
  refine ⟨⟨_, rfl⟩, ?_⟩
  apply setHead_noop
  simp [headNoOp]

/-- C5 witness: `SetHead` from height 1 to height 2 on the linear chain,
twice. -/
theorem setHead_idempotent_witness :
    (∃ r, (SetHead (exChain 4) exState (exTs 2)).1.reorgQueue
        = exState.reorgQueue ++ [r]) ∧
    SetHead (exChain 4) ((SetHead (exChain 4) exState (exTs 2)).1) (exTs 2)
      = ((SetHead (exChain 4) exState (exTs 2)).1, none) := by
  have hrun : SetHead (exChain 4) exState (exTs 2)
      = ((SetHead (exChain 4) exState (exTs 2)).1, none) := by decide
  exact setHead_idempotent (exChain 4) exState _ (exTs 2) (by decide) hrun

/-- C3: failure modes of `SetHead` leave the previous state intact.  If the
reorg computation fails, the error is returned with neither the in-memory
head nor the datastore mutated (the returned state is exactly `s`).  If the
reorg computation succeeds (or the head was unset) but persisting the head
key fails, an error is returned with the state again exactly `s`. -/
theorem setHead_failure_frame (src : Src) (s : StoreState) (t : TipSet) :
    (∀ o e, s.head = some o → ¬ o.key = t.key →
      CollectTipsToCommonAncestor src o t = .error e →
      SetHead src s t = (s, some e)) ∧
    (∀ o d a, s.head = some o → ¬ o.key = t.key →
      CollectTipsToCommonAncestor src o t = .ok (d, a) →
      s.ds.failKeys.contains DsKey.headKey = true →
      ∃ e, SetHead src s t = (s, some e)) ∧
    (s.head = none → s.ds.failKeys.contains DsKey.headKey = true →
      ∃ e, SetHead src s t = (s, some e)) := by
  refine ⟨?_, ?_, ?_⟩
  · intro o e hh hk hcol
    unfold SetHead
    rw [hh]
    show (if o.key = t.key then (s, none)
        else match CollectTipsToCommonAncestor src o t with
          | .error e => (s, some e)
          | .ok (dropped, added) => setHeadCommit s t dropped added)
        = (s, some e)
    rw [if_neg hk, hcol]
  · intro o d a hh hk hcol hc
    obtain ⟨e, he⟩ := @setHeadCommit_putFail s t d a hc
    refine ⟨e, ?_⟩
    unfold SetHead
    rw [hh]
    show (if o.key = t.key then (s, none)
        else match CollectTipsToCommonAncestor src o t with
          | .error e => (s, some e)
          | .ok (dropped, added) => setHeadCommit s t dropped added)
        = (s, some e)
    rw [if_neg hk, hcol]
    exact he
  · intro hh hc
    obtain ⟨e, he⟩ := @setHeadCommit_putFail s t [] [t] hc
    refine ⟨e, ?_⟩
    unfold SetHead
    rw [hh]
    exact he

/-- C3 witness: a reorg-computation failure (two disconnected genesis
blocks, no common ancestor) and a head-persist failure both return an error
with the state unchanged. -/
theorem setHead_failure_frame_witness :
    SetHead exSrcTwoGen exStateG exTsGen2
      = (exStateG, some "no common ancestor: reached genesis") ∧
    (∃ e, SetHead (exChain 4) exStateFail (exTs 1) = (exStateFail, some e)) :=
  ⟨(setHead_failure_frame exSrcTwoGen exStateG exTsGen2).1 (exTs 0) _ rfl
      (by decide) (by rfl),
    (setHead_failure_frame (exChain 4) exStateFail (exTs 1)).2.2 rfl (by decide)⟩

lemma dsPut_ok {d : Datastore} {k : DsKey} {v : DsValue} {d2 : Datastore}
    (h : dsPut d k v = .ok d2) :
    d2 = { d with data := (k, v) :: d.data } := by
  unfold dsPut at h
  by_cases hc : d.failKeys.contains k = true
  · rw [if_pos hc] at h
    cases h
  · rw [if_neg hc] at h
    cases h
    rfl

lemma writeTipSetMetadata_err {s : StoreState} {tsm : TipSetMetadata}
    (hroot : tsm.tipSetStateRoot = cidUndef ∨ tsm.tipSetReceipts = cidUndef) :
    ∃ e, writeTipSetMetadata s tsm = .error e := by
  unfold writeTipSetMetadata
  by_cases h1 : tsm.tipSetStateRoot = cidUndef
  · rw [if_pos h1]
    exact ⟨_, rfl⟩
  · have h2 : tsm.tipSetReceipts = cidUndef := hroot.resolve_left h1
    rw [if_neg h1, if_pos h2]
    exact ⟨_, rfl⟩

lemma writeTipSetMetadata_ok {s : StoreState} {tsm : TipSetMetadata} {h : Nat}
    (h1 : tsm.tipSetStateRoot ≠ cidUndef) (h2 : tsm.tipSetReceipts ≠ cidUndef)
    (hh : tsm.tipSet.heightE = some h)
    (hc : s.ds.failKeys.contains (DsKey.metaKey tsm.tipSet.key h) = false) :
    writeTipSetMetadata s tsm = .ok { s with ds := { s.ds with
      data := (DsKey.metaKey tsm.tipSet.key h,
        DsValue.meta tsm.tipSetStateRoot tsm.tipSetReceipts) :: s.ds.data } } := by
  simp only [writeTipSetMetadata, dsPut, hh]
  rw [if_neg h1, if_neg h2, if_neg (by simpa using hc)]
  rfl

lemma tipIndex_put_has_self (idx : TipIndex) (tsm : TipSetMetadata) :
    (idx.put tsm).has tsm.tipSet.key = true := by
  simp [TipIndex.put, TipIndex.has]

lemma tipIndex_put_has_mono {idx : TipIndex} {k : TipSetKey} (tsm : TipSetMetadata)
    (h : idx.has k = true) : (idx.put tsm).has k = true := by
  simp only [TipIndex.put, TipIndex.has, List.any_cons] at *
  rw [h]
  simp

/-- C7: a metadata record with an undefined (zero) state root or receipts
root is rejected — `PutTipSetMetadata` returns an error and the datastore is
unchanged (the per-tipset slot is not written); with both roots defined (on
a defined tipset and a non-failing key) the encoded
`(stateRoot, receiptsRoot)` pair is persisted in the per-tipset slot. -/
theorem putTipSetMetadata_roots (s : StoreState) (tsm : TipSetMetadata) :
    ((tsm.tipSetStateRoot = cidUndef ∨ tsm.tipSetReceipts = cidUndef) →
      (PutTipSetMetadata s tsm).2 ≠ none ∧ (PutTipSetMetadata s tsm).1.ds = s.ds) ∧
    (∀ h, tsm.tipSetStateRoot ≠ cidUndef → tsm.tipSetReceipts ≠ cidUndef →
      tsm.tipSet.heightE = some h →
      s.ds.failKeys.contains (DsKey.metaKey tsm.tipSet.key h) = false →
      (PutTipSetMetadata s tsm).2 = none ∧
      dsGet (PutTipSetMetadata s tsm).1.ds (DsKey.metaKey tsm.tipSet.key h)
        = some (DsValue.meta tsm.tipSetStateRoot tsm.tipSetReceipts)) := by
  constructor
  · intro hroot
    obtain ⟨e, he⟩ :=
      writeTipSetMetadata_err (s := { s with tipIndex := s.tipIndex.put tsm }) hroot
    simp only [PutTipSetMetadata]
    rw [he]
    exact ⟨by simp, rfl⟩
  · intro h h1 h2 hh hc
    have hw :=
      writeTipSetMetadata_ok (s := { s with tipIndex := s.tipIndex.put tsm }) h1 h2 hh hc
    simp only [PutTipSetMetadata]
    rw [hw]
    refine ⟨rfl, ?_⟩
    simp [dsGet, List.find?]

/-- C7 witness: the record with an undefined state root is rejected with the
datastore untouched; the fully defined record is persisted at its slot. -/
theorem putTipSetMetadata_roots_witness :
    ((PutTipSetMetadata exState exMetaBad).2 ≠ none ∧
      (PutTipSetMetadata exState exMetaBad).1.ds = exState.ds) ∧
    ((PutTipSetMetadata exState exMetaGood).2 = none ∧
      dsGet (PutTipSetMetadata exState exMetaGood).1.ds
          (DsKey.metaKey (exTs 1).key 1)
        = some (DsValue.meta 5 6)) :=
  ⟨(putTipSetMetadata_roots exState exMetaBad).1 (Or.inl rfl),
    (putTipSetMetadata_roots exState exMetaGood).2 1 (by decide) (by decide) rfl rfl⟩

/-- C9: with an undefined state or receipts root, `PutTipSetMetadata`
returns an error but has already inserted the entry into the in-memory tip
index — `HasTipSetAndState` on its key returns true afterwards — because
the index update precedes the datastore write that performs the validity
check. -/
theorem putTipSetMetadata_error_leaks_index (s : StoreState) (tsm : TipSetMetadata)
    (hroot : tsm.tipSetStateRoot = cidUndef ∨ tsm.tipSetReceipts = cidUndef) :
    (PutTipSetMetadata s tsm).2 ≠ none ∧
    HasTipSetAndState (PutTipSetMetadata s tsm).1 tsm.tipSet.key = true := by
  obtain ⟨e, he⟩ :=
    writeTipSetMetadata_err (s := { s with tipIndex := s.tipIndex.put tsm }) hroot
  simp only [PutTipSetMetadata]
  rw [he]
  exact ⟨by simp, tipIndex_put_has_self _ _⟩

/-- C9 witness: the bad record errors yet its key is indexed afterwards. -/
theorem putTipSetMetadata_error_leaks_index_witness :
    (PutTipSetMetadata exState exMetaBad).2 ≠ none ∧
    HasTipSetAndState (PutTipSetMetadata exState exMetaBad).1 exMetaBad.tipSet.key = true :=
  putTipSetMetadata_error_leaks_index exState exMetaBad (Or.inl rfl)

/-- C10: `WriteCheckPoint` writes the encoded key to the checkpoint slot of
the datastore but leaves the in-memory checkpoint (what `GetCheckPoint`
returns) and the head unchanged; `SetCheckPoint` changes exactly the value
`GetCheckPoint` returns and writes nothing to the datastore. -/
theorem checkpoint_memory_disk (s s' : StoreState) (k : TipSetKey) :
    (WriteCheckPoint s k = (s', none) →
      dsGet s'.ds DsKey.checkPointKey = some (encodeTipSetKey k) ∧
      GetCheckPoint s' = GetCheckPoint s ∧ s'.head = s.head) ∧
    (GetCheckPoint (SetCheckPoint s k) = k ∧ (SetCheckPoint s k).ds = s.ds ∧
      (SetCheckPoint s k).head = s.head) := by
  constructor
  · intro h
    cases hput : dsPut s.ds DsKey.checkPointKey (encodeTipSetKey k) with
    | error e =>
      unfold WriteCheckPoint at h
      rw [hput] at h
      exact absurd (congrArg Prod.snd h) (by simp)
    | ok d =>
      unfold WriteCheckPoint at h
      rw [hput] at h
      obtain rfl := dsPut_ok hput
      have h2 : ({ s with ds := { s.ds with
          data := (DsKey.checkPointKey, encodeTipSetKey k) :: s.ds.data } },
          (none : Option String)) = (s', none) := h
      cases h2
      refine ⟨?_, rfl, rfl⟩
      simp [dsGet, List.find?]
  · exact ⟨rfl, rfl, rfl⟩

/-- C10 witness: writing checkpoint key `[7]` on the example state. -/
theorem checkpoint_memory_disk_witness :
    (dsGet (WriteCheckPoint exState [7]).1.ds DsKey.checkPointKey
        = some (encodeTipSetKey [7]) ∧
      GetCheckPoint (WriteCheckPoint exState [7]).1 = GetCheckPoint exState ∧
      (WriteCheckPoint exState [7]).1.head = exState.head) ∧
    (GetCheckPoint (SetCheckPoint exState [7]) = [7] ∧
      (SetCheckPoint exState [7]).ds = exState.ds ∧
      (SetCheckPoint exState [7]).head = exState.head) := by
  have hrun : WriteCheckPoint exState [7] = ((WriteCheckPoint exState [7]).1, none) := by
    decide
  exact ⟨(checkpoint_memory_disk exState _ [7]).1 hrun,
    (checkpoint_memory_disk exState ((WriteCheckPoint exState [7]).1) [7]).2⟩

/-- C6: `GetTipSetByHeight(from, h, prev)` errors when `h` exceeds the start
height; returns `from` at equal height; and otherwise, when the index walk
lands on a tipset strictly above `h` (null blocks), returns that tipset when
`prev` is false and its parent tipset when `prev` is true. -/
theorem getTipSetByHeight_spec (src : Src) (s : StoreState) (ts lbts pts : TipSet) (h : Nat) :
    (∀ prev, h > ts.ensureHeight →
      GetTipSetByHeight src s (some ts) h prev
        = .error "looking for tipset with height greater than start point") ∧
    (∀ prev, h = ts.ensureHeight →
      GetTipSetByHeight src s (some ts) h prev = .ok ts) ∧
    (h < ts.ensureHeight →
      chainIndexGetTipSetByHeight src ts h = .ok lbts →
      h < lbts.ensureHeight →
      (GetTipSetByHeight src s (some ts) h false = .ok lbts ∧
        (GetTipSet src lbts.ensureParents = .ok pts →
          GetTipSetByHeight src s (some ts) h true = .ok pts))) := by
  refine ⟨?_, ?_, ?_⟩
  · intro prev hgt
    simp only [GetTipSetByHeight]
    rw [if_pos hgt]
  · intro prev heq
    simp only [GetTipSetByHeight]
    rw [if_neg (by omega), if_pos heq]
  · intro hlt hidx hnull
    have hne : ¬ h > ts.ensureHeight := by omega
    have hne2 : ¬ h = ts.ensureHeight := by omega
    have hnf : ¬ lbts.ensureHeight < h := by omega
    have hneq : ¬ lbts.ensureHeight = h := by omega
    constructor
    · simp only [GetTipSetByHeight]
      rw [if_neg hne, if_neg hne2]
      simp only [hidx]
      rw [if_neg hnf]
      show (if (decide (lbts.ensureHeight = h) || !false) = true then Except.ok lbts
          else GetTipSet src lbts.ensureParents) = Except.ok lbts
      simp
    · intro hpts
      simp only [GetTipSetByHeight]
      rw [if_neg hne, if_neg hne2]
      simp only [hidx]
      rw [if_neg hnf]
      show (if (decide (lbts.ensureHeight = h) || !true) = true then Except.ok lbts
          else GetTipSet src lbts.ensureParents) = Except.ok pts
      rw [if_neg (by simp [hneq])]
      exact hpts

/-- C6 witness: on the null-block chain (heights 0, 1, 3), querying from the
height-3 tipset: height 5 errors, height 3 returns the start, height 2 lands
on the height-3 tipset when `prev` is false and on its parent (height 1)
when `prev` is true. -/
theorem getTipSetByHeight_spec_witness :
    GetTipSetByHeight exSrcNull exState (some exTsNull3) 5 false
      = .error "looking for tipset with height greater than start point" ∧
    GetTipSetByHeight exSrcNull exState (some exTsNull3) 3 true = .ok exTsNull3 ∧
    GetTipSetByHeight exSrcNull exState (some exTsNull3) 2 false = .ok exTsNull3 ∧
    GetTipSetByHeight exSrcNull exState (some exTsNull3) 2 true = .ok (exTs 1) := by
  refine ⟨?_, ?_, ?_, ?_⟩
  · exact (getTipSetByHeight_spec exSrcNull exState exTsNull3 exTsNull3 (exTs 1) 5).1
      false (by decide)
  · exact (getTipSetByHeight_spec exSrcNull exState exTsNull3 exTsNull3 (exTs 1) 3).2.1
      true (by decide)
  · exact ((getTipSetByHeight_spec exSrcNull exState exTsNull3 exTsNull3 (exTs 1) 2).2.2
      (by decide) (by rfl) (by decide)).1
  · exact ((getTipSetByHeight_spec exSrcNull exState exTsNull3 exTsNull3 (exTs 1) 2).2.2
      (by decide) (by rfl) (by decide)).2 (by rfl)

lemma beaconAux_noBeacon {src : Src} (env : Option String) :
    ∀ fuel ts, walkNoBeacon src fuel ts = true →
      getLatestBeaconEntryAux src env fuel ts
        = (if env = some "_yes_" then .ok { data := drandFill }
            else .error "found NO beacon entries in the 20 blocks prior to given tipset") := by
  intro fuel
  induction fuel with
  | zero => intro ts _; rfl
  | succ fuel ih =>
    intro ts hw
    simp only [walkNoBeacon, Bool.and_eq_true] at hw
    obtain ⟨⟨hempty, hz⟩, hrest⟩ := hw
    have hl : (ts.at0.beaconEntries).getLast? = none := by
      cases hbe : ts.at0.beaconEntries
      · rfl
      · rw [hbe] at hempty
        simp [List.isEmpty] at hempty
    simp only [getLatestBeaconEntryAux, hl]
    have hz2 : ¬ ts.ensureHeight = 0 := by simpa using hz
    rw [if_neg hz2]
    cases hg : GetTipSet src ts.ensureParents with
    | error e =>
      rw [hg] at hrest
      exact Bool.noConfusion hrest
    | ok next =>
      rw [hg] at hrest
      have hrest2 : walkNoBeacon src fuel next = true := hrest
      simp only [hg]
      exact ih next hrest2

lemma beaconAux_found {src : Src} (env : Option String) :
    ∀ fuel ts e, firstBeaconWithin src fuel ts = some e →
      getLatestBeaconEntryAux src env fuel ts = .ok e := by
  intro fuel
  induction fuel with
  | zero =>
    intro ts e h
    simp [firstBeaconWithin] at h
  | succ fuel ih =>
    intro ts e h
    simp only [firstBeaconWithin] at h
    cases hl : (ts.at0.beaconEntries).getLast? with
    | some e2 =>
      simp only [hl, Option.some.injEq] at h
      subst h
      simp [getLatestBeaconEntryAux, hl]
    | none =>
      simp only [hl] at h
      by_cases hz : ts.ensureHeight = 0
      · rw [if_pos hz] at h
        cases h
      · rw [if_neg hz] at h
        cases hg : GetTipSet src ts.ensureParents with
        | error e3 =>
          rw [hg] at h
          exact Option.noConfusion h
        | ok next =>
          rw [hg] at h
          have h2 : firstBeaconWithin src fuel next = some e := h
          simp only [getLatestBeaconEntryAux, hl]
          rw [if_neg hz]
          simp only [hg]
          exact ih next e h2

/-- C8: when the 20-step ancestor walk from `ts` finds no beacon entries in
the visited first blocks and never reaches genesis, `GetLatestBeaconEntry`
returns the fixed 16-byte entry `{9}×16` when `VENUS_IGNORE_DRAND` equals
`"_yes_"` and an error when the variable is unset; when some ancestor within
the 20 steps has beacon entries in its first block, it returns that block's
last beacon entry whatever the environment holds. -/
theorem getLatestBeaconEntry_spec (src : Src) (ts : TipSet) :
    (walkNoBeacon src 20 ts = true →
      GetLatestBeaconEntry src (some "_yes_") ts = .ok { data := drandFill } ∧
      GetLatestBeaconEntry src none ts
        = .error "found NO beacon entries in the 20 blocks prior to given tipset") ∧
    (∀ e env, firstBeaconWithin src 20 ts = some e →
      GetLatestBeaconEntry src env ts = .ok e) := by
  constructor
  · intro hw
    constructor
    · unfold GetLatestBeaconEntry
      rw [beaconAux_noBeacon _ 20 ts hw]
      simp
    · unfold GetLatestBeaconEntry
      rw [beaconAux_noBeacon _ 20 ts hw]
      simp
  · intro e env h
    exact beaconAux_found env 20 ts e h

/-- C8 witness: on a 26-block chain whose only beacon entries sit at height
1, the walk from height 25 exhausts its 20 steps (env hook honoured), while
the walk from height 3 finds the entry `[2]` at height 1. -/
theorem getLatestBeaconEntry_spec_witness :
    (GetLatestBeaconEntry (exChainB 26) (some "_yes_") (exTsB 25)
        = .ok { data := drandFill } ∧
      GetLatestBeaconEntry (exChainB 26) none (exTsB 25)
        = .error "found NO beacon entries in the 20 blocks prior to given tipset") ∧
    GetLatestBeaconEntry (exChainB 26) none (exTsB 3) = .ok ⟨[2]⟩ :=
  ⟨(getLatestBeaconEntry_spec (exChainB 26) (exTsB 25)).1 (by decide),
    (getLatestBeaconEntry_spec (exChainB 26) (exTsB 3)).2 ⟨[2]⟩ none (by decide)⟩

lemma writeTipSetMetadata_ok_inv {s : StoreState} {tsm : TipSetMetadata} {s2 : StoreState}
    (h : writeTipSetMetadata s tsm = .ok s2) :
    s2.tipIndex = s.tipIndex := by
  unfold writeTipSetMetadata at h
  by_cases h1 : tsm.tipSetStateRoot = cidUndef
  · rw [if_pos h1] at h
    cases h
  · rw [if_neg h1] at h
    by_cases h2 : tsm.tipSetReceipts = cidUndef
    · rw [if_pos h2] at h
      cases h
    · rw [if_neg h2] at h
      cases hh : tsm.tipSet.heightE with
      | none =>
        rw [hh] at h
        cases h
      | some v =>
        rw [hh] at h
        have h3 : Except.map (fun d => { s with ds := d })
            (dsPut s.ds (DsKey.metaKey tsm.tipSet.key v)
              (DsValue.meta tsm.tipSetStateRoot tsm.tipSetReceipts)) = Except.ok s2 := h
        cases hput : dsPut s.ds (DsKey.metaKey tsm.tipSet.key v)
            (DsValue.meta tsm.tipSetStateRoot tsm.tipSetReceipts) with
        | error e =>
          rw [hput] at h3
          cases h3
        | ok d =>
          rw [hput] at h3
          have h4 : Except.ok { s with ds := d } = Except.ok s2 := h3
          cases h4
          rfl

lemma putTipSetMetadata_tipIndex (s : StoreState) (tsm : TipSetMetadata) :
    ((PutTipSetMetadata s tsm).1).tipIndex = s.tipIndex.put tsm := by
  simp only [PutTipSetMetadata]
  cases hw : writeTipSetMetadata { s with tipIndex := s.tipIndex.put tsm } tsm with
  | error e => rfl
  | ok s2 =>
    simp only [hw]
    exact writeTipSetMetadata_ok_inv hw

lemma setHeadCommit_tipIndex (s : StoreState) (t : TipSet) (d a : List TipSet) :
    ((setHeadCommit s t d a).1).tipIndex = s.tipIndex := by
  unfold setHeadCommit writeHead dsPut
  by_cases hc : s.ds.failKeys.contains DsKey.headKey = true
  · rw [if_pos hc]
    rfl
  · rw [if_neg hc]
    cases hh : t.heightE with
    | none => simp only [Except.map, hh]
    | some v => simp only [Except.map, hh]

lemma setHead_tipIndex (src : Src) (s : StoreState) (t : TipSet) :
    ((SetHead src s t).1).tipIndex = s.tipIndex := by
  unfold SetHead
  cases hh : s.head with
  | none => exact setHeadCommit_tipIndex s t [] [t]
  | some o =>
    show ((if o.key = t.key then (s, none)
        else match CollectTipsToCommonAncestor src o t with
          | .error e => (s, some e)
          | .ok (dropped, added) => setHeadCommit s t dropped added).1).tipIndex
      = s.tipIndex
    by_cases hk : o.key = t.key
    · rw [if_pos hk]
    · rw [if_neg hk]
      cases hcol : CollectTipsToCommonAncestor src o t with
      | error e => simp only [hcol]
      | ok da =>
        obtain ⟨d, a⟩ := da
        simp only [hcol]
        exact setHeadCommit_tipIndex s t d a

lemma loadWalk_has_mono {src : Src} {k : TipSetKey} :
    ∀ fuel (s : StoreState) ts lb, s.tipIndex.has k = true →
      (((loadWalk src fuel s ts lb).1).tipIndex.has k) = true := by
  intro fuel
  induction fuel with
  | zero =>
    intro s ts lb hh
    exact hh
  | succ fuel ih =>
    intro s ts lb hh
    simp only [loadWalk]
    cases hm : loadStateRootAndReceipts s ts with
    | error e => exact hh
    | ok p =>
      obtain ⟨sr, rr⟩ := p
      cases hput : PutTipSetMetadata s
          { tipSet := ts, tipSetStateRoot := sr, tipSetReceipts := rr } with
      | mk s2 eo =>
        have hh2 : s2.tipIndex.has k = true := by
          have hpi := putTipSetMetadata_tipIndex s
            { tipSet := ts, tipSetStateRoot := sr, tipSetReceipts := rr }
          rw [hput] at hpi
          rw [show s2.tipIndex = _ from hpi]
          exact tipIndex_put_has_mono _ hh
        cases eo with
        | some e =>
          simp only [hput]
          exact hh2
        | none =>
          simp only [hput]
          by_cases hlb : (ts.ensureHeight : Int) ≤ lb
          · rw [if_pos hlb]
            exact hh2
          · rw [if_neg hlb]
            by_cases hpe : ts.ensureParents = []
            · rw [if_pos hpe]
              exact hh2
            · rw [if_neg hpe]
              cases hg : GetTipSet src ts.ensureParents with
              | error e => exact hh2
              | ok pts =>
                exact ih s2 pts lb hh2

lemma loadWalk_spec {src : Src} (hz : zeroNoParents src = true) (hr : rootedLow src = true) :
    ∀ fuel (s : StoreState) ts lb s' vs,
      (ts.ensureHeight = 0 → ts.ensureParents = []) →
      (ts.ensureParents = [] → ts.ensureHeight = 0) →
      loadWalk src fuel s ts lb = (s', vs, none) →
      vs.head? = some ts ∧
      (∀ v ∈ vs, (s'.tipIndex.has v.key) = true) ∧
      (∀ v ∈ vs.dropLast, ¬ ((v.ensureHeight : Int) ≤ lb) ∧ v.ensureHeight ≠ 0) ∧
      (∀ v, vs.getLast? = some v → ((v.ensureHeight : Int) ≤ lb ∨ v.ensureHeight = 0)) ∧
      vs.Chain' (fun x y => GetTipSet src x.ensureParents = Except.ok y) := by
  intro fuel
  induction fuel with
  | zero =>
    intro s ts lb s' vs _ _ h
    exact absurd (congrArg (fun p => p.2.2) h) (by simp [loadWalk])
  | succ fuel ih =>
    intro s ts lb s' vs hz1 hr1 h
    simp only [loadWalk] at h
    cases hm : loadStateRootAndReceipts s ts with
    | error e =>
      simp only [hm] at h
      exact absurd (congrArg (fun p => p.2.2) h) (by simp)
    | ok p =>
      obtain ⟨sr, rr⟩ := p
      simp only [hm] at h
      cases hput : PutTipSetMetadata s
          { tipSet := ts, tipSetStateRoot := sr, tipSetReceipts := rr } with
      | mk s2 eo =>
        have hs2idx : s2.tipIndex.has ts.key = true := by
          have hpi := putTipSetMetadata_tipIndex s
            { tipSet := ts, tipSetStateRoot := sr, tipSetReceipts := rr }
          rw [hput] at hpi
          rw [show s2.tipIndex = _ from hpi]
          exact tipIndex_put_has_self _ _
        cases eo with
        | some e =>
          simp only [hput] at h
          exact absurd (congrArg (fun p => p.2.2) h) (by simp)
        | none =>
          simp only [hput] at h
          by_cases hlb : (ts.ensureHeight : Int) ≤ lb
          · rw [if_pos hlb] at h
            simp only [Prod.mk.injEq] at h
            obtain ⟨rfl, rfl, -⟩ := h
            refine ⟨rfl, ?_, ?_, ?_, List.chain'_singleton _⟩
            · intro v hv
              simp at hv
              subst hv
              exact hs2idx
            · intro v hv
              simp at hv
            · intro v hv
              simp at hv
              subst hv
              exact Or.inl hlb
          · rw [if_neg hlb] at h
            by_cases hpe : ts.ensureParents = []
            · rw [if_pos hpe] at h
              simp only [Prod.mk.injEq] at h
              obtain ⟨rfl, rfl, -⟩ := h
              refine ⟨rfl, ?_, ?_, ?_, List.chain'_singleton _⟩
              · intro v hv
                simp at hv
                subst hv
                exact hs2idx
              · intro v hv
                simp at hv
              · intro v hv
                simp at hv
                subst hv
                exact Or.inr (hr1 hpe)
            · rw [if_neg hpe] at h
              cases hg : GetTipSet src ts.ensureParents with
              | error e =>
                simp only [hg] at h
                exact absurd (congrArg (fun p => p.2.2) h) (by simp)
              | ok pts =>
                simp only [hg] at h
                cases hq : loadWalk src fuel s2 pts lb with
                | mk s3 rest =>
                  obtain ⟨vs2, e2⟩ := rest
                  simp only [hq] at h
                  simp only [Prod.mk.injEq] at h
                  obtain ⟨rfl, rfl, rfl⟩ := h
                  have hiff := zeroIff_of_get hz hr hg
                  obtain ⟨ihHead, ihHas, ihDrop, ihLast, ihChain⟩ :=
                    ih s2 pts lb s3 vs2 hiff.mp hiff.mpr hq
                  cases vs2 with
                  | nil => cases ihHead
                  | cons b L =>
                    have hb : b = pts := by simpa using ihHead
                    have hts0 : ts.ensureHeight ≠ 0 := fun h0 => hpe (hz1 h0)
                    refine ⟨rfl, ?_, ?_, ?_, ?_⟩
                    · intro v hv
                      rcases List.mem_cons.mp hv with rfl | hv2
                      · have hmono := @loadWalk_has_mono src v.key fuel s2 pts lb hs2idx
                        rw [hq] at hmono
                        exact hmono
                      · exact ihHas v hv2
                    · intro v hv
                      rw [List.dropLast_cons_of_ne_nil (by simp)] at hv
                      rcases List.mem_cons.mp hv with rfl | hv2
                      · exact ⟨hlb, hts0⟩
                      · exact ihDrop v hv2
                    · intro v hv
                      rw [List.getLast?_cons_cons] at hv
                      exact ihLast v hv
                    · rw [List.chain'_cons']
                      refine ⟨?_, ihChain⟩
                      intro y hy
                      have hyb : y = b := by
                        have := hy
                        simp at this
                        exact this.symm
                      subst hyb
                      rw [hb]
                      exact hg

/-- C4: for every successful `Load` on a genesis-rooted source (height-0
blocks have no parents, parentless blocks sit at height 0), the ancestor
walk from the head visits a parent-linked chain, puts metadata for every
visited tipset into the tip index, and stops exactly at the first tipset
whose height is at or below the saturated bound `max loopBack 0` — where
`loopBack` is `checkpoint height − 10` (signed, unsaturated, as the code
computes it) when a checkpoint is set and `0` otherwise: every visited
tipset but the last lies strictly above the bound, and the last lies at or
below it (height 0, i.e. genesis, when there is no checkpoint). -/
theorem load_walk_checkpoint (src : Src) (s s' : StoreState) (vs : List TipSet)
    (hz : zeroNoParents src = true) (hr : rootedLow src = true)
    (hrun : Load src s = (s', vs, none)) :
    (∀ v ∈ vs, s'.tipIndex.has v.key = true) ∧
    vs.Chain' (fun x y => GetTipSet src x.ensureParents = Except.ok y) ∧
    (∀ lb, loadLoopBack src s = .ok lb →
      (∀ v ∈ vs.dropLast, ¬ ((v.ensureHeight : Int) ≤ max lb 0)) ∧
      (∀ v, vs.getLast? = some v → (v.ensureHeight : Int) ≤ max lb 0)) := by
  simp only [Load] at hrun
  cases hlh : loadHead { s with tipIndex := ⟨[], []⟩ } with
  | error e =>
    simp only [hlh] at hrun
    exact absurd (congrArg (fun p => p.2.2) hrun) (by simp)
  | ok headKeyv =>
    simp only [hlh] at hrun
    cases hgh : GetTipSet src headKeyv with
    | error e =>
      simp only [hgh] at hrun
      exact absurd (congrArg (fun p => p.2.2) hrun) (by simp)
    | ok headTs =>
      simp only [hgh] at hrun
      cases hllb : loadLoopBack src ({ s with tipIndex := ⟨[], []⟩ }) with
      | error e =>
        simp only [hllb] at hrun
        exact absurd (congrArg (fun p => p.2.2) hrun) (by simp)
      | ok lb0 =>
        simp only [hllb] at hrun
        cases hw : loadWalk src (headTs.ensureHeight + 1)
            { s with tipIndex := ⟨[], []⟩ } headTs lb0 with
        | mk s2 rest =>
          obtain ⟨vs2, eo⟩ := rest
          simp only [hw] at hrun
          cases eo with
          | some e =>
            simp only [Prod.mk.injEq] at hrun
            exact absurd hrun.2.2 (by simp)
          | none =>
            cases hsh : SetHead src s2 headTs with
            | mk s3 e3 =>
              simp only [hsh, Prod.mk.injEq] at hrun
              obtain ⟨rfl, rfl, rfl⟩ := hrun
              have hiff := zeroIff_of_get hz hr hgh
              obtain ⟨ihHead, ihHas, ihDrop, ihLast, ihChain⟩ :=
                loadWalk_spec hz hr (headTs.ensureHeight + 1) _ headTs lb0 s2 _
                  hiff.mp hiff.mpr hw
              refine ⟨?_, ihChain, ?_⟩
              · intro v hv
                have hidx := setHead_tipIndex src s2 headTs
                rw [hsh] at hidx
                rw [show s3.tipIndex = s2.tipIndex from hidx]
                exact ihHas v hv
              · intro lb hlb
                have hsame : loadLoopBack src s
                    = loadLoopBack src ({ s with tipIndex := ⟨[], []⟩ }) := rfl
                rw [hsame, hllb] at hlb
                injection hlb with hlb2
                subst hlb2
                constructor
                · intro v hv
                  obtain ⟨hnle, hne0⟩ := ihDrop v hv
                  intro hcon
                  rcases le_total lb0 0 with hmax | hmax
                  · rw [max_eq_right hmax] at hcon
                    omega
                  · rw [max_eq_left hmax] at hcon
                    exact hnle hcon
                · intro v hv
                  rcases ihLast v hv with hle | h0
                  · exact le_trans hle (le_max_left _ _)
                  · rw [h0]
                    simp

/-- C4 witness: loading the 16-block chain with checkpoint at height 12
(`loopBack = 2`) indexes the visited tipsets; height 3 is visited before the
stop and lies above the bound, height 2 is the last visited tipset; with no
checkpoint the walk reaches genesis (height 0 is the last visited tipset). -/
theorem load_walk_checkpoint_witness :
    (Load (exChain 16) exStateLoad).1.tipIndex.has (exTs 2).key = true ∧
    ¬ (((exTs 3).ensureHeight : Int) ≤ max 2 0) ∧
    (((exTs 2).ensureHeight : Int) ≤ max 2 0) ∧
    (((exTs 0).ensureHeight : Int) ≤ max 0 0) := by
  have hrun : Load (exChain 16) exStateLoad
      = ((Load (exChain 16) exStateLoad).1, (Load (exChain 16) exStateLoad).2.1, none) := by
    decide
  have hmain := load_walk_checkpoint (exChain 16) exStateLoad
    ((Load (exChain 16) exStateLoad).1) ((Load (exChain 16) exStateLoad).2.1)
    (by decide) (by decide) hrun
  have hrun2 : Load (exChain 16) exStateLoadNoCp
      = ((Load (exChain 16) exStateLoadNoCp).1, (Load (exChain 16) exStateLoadNoCp).2.1,
          none) := by
    decide
  have hmain2 := load_walk_checkpoint (exChain 16) exStateLoadNoCp
    ((Load (exChain 16) exStateLoadNoCp).1) ((Load (exChain 16) exStateLoadNoCp).2.1)
    (by decide) (by decide) hrun2
  refine ⟨hmain.1 (exTs 2) (by decide), ?_, ?_, ?_⟩
  · exact (hmain.2.2 2 (by rfl)).1 (exTs 3) (by decide)
  · exact (hmain.2.2 2 (by rfl)).2 (exTs 2) (by decide)
  · exact (hmain2.2.2 0 (by rfl)).2 (exTs 0) (by decide)
